import Mathlib

/-!
Verification development for the 10101 trading coordinator.

This file gives a shallow embedding of the core algorithms of the
coordinator — the collaborative-revert fee arithmetic and split, the order
matcher, and the UTXO reservation logic of the on-chain wallet — and proves
(or refutes) the properties claimed about them.

Conventions of the embedding:

- Rust `u64` values are modelled as `Nat`, `i64` values as `Int`; wherever
  the source relies on wrapping casts or checked arithmetic, the wrap is
  made explicit with `% 2^64` (resp. an explicit range check against
  `2^63`).
- `rust_decimal::Decimal` prices and quantities are modelled as `ℚ`
  (decimal arithmetic in the source is exact and totally ordered by
  numeric value, which `ℚ` captures).
- Timestamps (`OffsetDateTime`) are modelled as `ℤ`, public keys, UUIDs,
  scripts and transaction ids as `ℕ`: the code only moves them around and
  compares them for equality/order.
- Fallible Rust functions returning `Result`/`Option` are modelled with
  `Option`/`Except`.
-/

/-! ## Checked machine arithmetic

Helpers mirroring the Rust integer primitives used by
`coordinator/src/collaborative_revert.rs`. -/

/-- Rust `u64::checked_sub`: `a - b` unless it underflows. -/
def u64CheckedSub (a b : ℕ) : Option ℕ :=
  if b ≤ a then some (a - b) else none

/-- Rust `i64::checked_sub`: `a - b` unless the result leaves the `i64` range. -/
def i64CheckedSub (a b : ℤ) : Option ℤ :=
  if -2 ^ 63 ≤ a - b ∧ a - b < 2 ^ 63 then some (a - b) else none

/-- Rust `i64::checked_add`: `a + b` unless the result leaves the `i64` range. -/
def i64CheckedAdd (a b : ℤ) : Option ℤ :=
  if -2 ^ 63 ≤ a + b ∧ a + b < 2 ^ 63 then some (a + b) else none

/-- Rust `x as u64` applied to an `i64` value: reinterpretation modulo `2^64`. -/
def i64AsU64 (x : ℤ) : ℕ :=
  (x % 2 ^ 64).toNat

/-! ## Collaborative-revert fee arithmetic

Embedding of `calculate_dlc_channel_tx_fees`
(`coordinator/src/collaborative_revert.rs`). The source subtracts, in
order: the inbound capacity, the outbound capacity, the trader margin
minus pnl (computed with `i64::checked_sub` and then cast `as u64`), and
the coordinator margin plus pnl (computed with `i64::checked_add` and then
cast `as u64`), each step with `u64::checked_sub`, propagating any failure
as an error. -/

/-- Embeds `calculate_dlc_channel_tx_fees`: the checked-subtraction chain
computing the total DLC sub-channel transaction fee. `none` models the
`anyhow` error path. -/
def calculate_dlc_channel_tx_fees (initialFunding : ℕ) (pnl : ℤ)
    (inboundCapacity outboundCapacity : ℕ)
    (traderMargin coordinatorMargin : ℤ) : Option ℕ :=
  match u64CheckedSub initialFunding inboundCapacity with
  | none => none
  | some a =>
    match u64CheckedSub a outboundCapacity with
    | none => none
    | some b =>
      match i64CheckedSub traderMargin pnl with
      | none => none
      | some tm =>
        match u64CheckedSub b (i64AsU64 tm) with
        | none => none
        | some c =>
          match i64CheckedAdd coordinatorMargin pnl with
          | none => none
          | some cm => u64CheckedSub c (i64AsU64 cm)

/-- C4: the two unit-test vectors of `calculate_dlc_channel_tx_fees`:
`(200_000, −4047, 65_450, 85_673, 18_690, 18_690)` evaluates to `11_497`
and `(200_000, −100, 65_383, 88_330, 180_362, 180_362)` errors. -/
theorem calculate_dlc_channel_tx_fees_test_vectors :
    calculate_dlc_channel_tx_fees 200000 (-4047) 65450 85673 18690 18690 =
      some 11497 ∧
    calculate_dlc_channel_tx_fees 200000 (-100) 65383 88330 180362 180362 =
      none := by
  constructor <;> decide

/-- C2 counterexample: the input `(10, 5, 0, 0, 0, 0)` satisfies
`initial_funding ≥ inbound + outbound + (trader_margin − pnl) +
(coordinator_margin + pnl)` (the right-hand side is `0`), yet the function
errors instead of returning the difference `10`: `trader_margin − pnl = −5`
is negative, and the `as u64` cast wraps it to a huge subtrahend, so the
checked subtraction fails. -/
theorem calculate_dlc_channel_tx_fees_claim_counterexample :
    ((0 : ℤ) + 0 + ((0 : ℤ) - 5) + ((0 : ℤ) + 5) ≤ (10 : ℤ)) ∧
    calculate_dlc_channel_tx_fees 10 5 0 0 0 0 = none := by
  constructor <;> decide

/-- C2 (amended): whenever `trader_margin − pnl` and
`coordinator_margin + pnl` are nonnegative and within the `i64` range (so
that the `as u64` casts in the source are value-preserving), the function
returns `initial_funding − inbound − outbound − (trader_margin − pnl) −
(coordinator_margin + pnl)` exactly when
`inbound + outbound + (trader_margin − pnl) + (coordinator_margin + pnl) ≤
initial_funding`, and errors otherwise — never wrapping. -/
theorem calculate_dlc_channel_tx_fees_spec (f : ℕ) (pnl : ℤ) (ic oc : ℕ)
    (tm cm : ℤ)
    (h1 : 0 ≤ tm - pnl) (h2 : tm - pnl < 2 ^ 63)
    (h3 : 0 ≤ cm + pnl) (h4 : cm + pnl < 2 ^ 63) :
    calculate_dlc_channel_tx_fees f pnl ic oc tm cm =
      if (ic : ℤ) + (oc : ℤ) + (tm - pnl) + (cm + pnl) ≤ (f : ℤ) then
        some (((f : ℤ) - ic - oc - (tm - pnl) - (cm + pnl)).toNat)
      else none := by
  have htm : (tm - pnl) % 2 ^ 64 = tm - pnl := Int.emod_eq_of_lt h1 (by omega)
  have hcm : (cm + pnl) % 2 ^ 64 = cm + pnl := Int.emod_eq_of_lt h3 (by omega)
  unfold calculate_dlc_channel_tx_fees u64CheckedSub i64CheckedSub i64CheckedAdd i64AsU64
  rw [if_pos (⟨by omega, h2⟩ : -2 ^ 63 ≤ tm - pnl ∧ tm - pnl < 2 ^ 63),
    if_pos (⟨by omega, h4⟩ : -2 ^ 63 ≤ cm + pnl ∧ cm + pnl < 2 ^ 63)]
  simp only [htm, hcm]
  by_cases c1 : ic ≤ f
  · simp only [if_pos c1]
    by_cases c2 : oc ≤ f - ic
    · simp only [if_pos c2]
      by_cases c3 : (tm - pnl).toNat ≤ f - ic - oc
      · simp only [if_pos c3]
        by_cases c4 : (cm + pnl).toNat ≤ f - ic - oc - (tm - pnl).toNat
        · simp only [if_pos c4]
          rw [if_pos (by omega)]
          congr 1
          omega
        · simp only [if_neg c4]
          rw [if_neg (by omega)]
      · simp only [if_neg c3]
        rw [if_neg (by omega)]
    · simp only [if_neg c2]
      rw [if_neg (by omega)]
  · simp only [if_neg c1]
    rw [if_neg (by omega)]

/-- C2 witness: instantiation of the amended fee theorem at the happy-path
unit-test vector. -/
theorem calculate_dlc_channel_tx_fees_spec_witness :
    calculate_dlc_channel_tx_fees 200000 (-4047) 65450 85673 18690 18690 =
      if (65450 : ℤ) + (85673 : ℤ) + ((18690 : ℤ) - (-4047)) + ((18690 : ℤ) + (-4047)) ≤ (200000 : ℤ) then
        some (((200000 : ℤ) - 65450 - 85673 - ((18690 : ℤ) - (-4047)) - ((18690 : ℤ) + (-4047))).toNat)
      else none :=
  calculate_dlc_channel_tx_fees_spec 200000 (-4047) 65450 85673 18690 18690
    (by decide) (by decide) (by decide) (by decide)

/-! ## Collaborative-revert split

Embedding of the amount computation of
`notify_user_to_collaboratively_revert`
(`coordinator/src/collaborative_revert.rs`, lines 79–118). The settlement
amount, the coordinator pnl and the DLC channel fee are computed upstream
and enter here as parameters. Notes on the machine arithmetic:

- `sub_channel.fund_value_satoshis as i64` is value-preserving for funding
  values below `2^63` (satoshi amounts are far below that); the embedding
  uses the mathematical integer and the theorem carries the `< 2^63`
  bound.
- `(dlc_channel_fee as f64 / 2.0) as i64` halves a `u64` in `f64` and
  truncates: for values below `2^53` (every representable fee) this is
  exactly floor division by two, which is how it is embedded.
- the `u64` subtractions for the two final outputs wrap on underflow in
  the source (release build); the embedding makes the wrap explicit with
  `% 2^64`. -/

/-- The weight constant for the collaborative close transaction
(`COLLABORATIVE_REVERT_TX_WEIGHT`). -/
def COLLABORATIVE_REVERT_TX_WEIGHT : ℕ := 672

/-- Modelled from the spec: `dlc::util::weight_to_fee` comes from the
external `dlc` crate, whose source is not part of this repository. The
spec fixes its behavior on the revert path: the close-transaction fee for
the 672-weight transaction at rate `r` sats/vB is `672 × r` (spec §8 S6:
"onchain fee F at 672 vB × 5 sat/vB = 3360 sats"). -/
def weight_to_fee (weight feeRateSatsVb : ℕ) : ℕ :=
  weight * feeRateSatsVb

/-- Embeds the split computation of `notify_user_to_collaboratively_revert`:
given the channel funding value, the trader's inbound capacity in msats,
the settlement amount, the DLC channel fee and the fee rate, returns the
pair (final coordinator amount, final trader amount) proposed to the
trader. -/
def collaborative_revert_split (fundValueSatoshis inboundCapacityMsat
    settlementAmount dlcChannelFee feeRateSatsVb : ℕ) : ℕ × ℕ :=
  let coordinatorAmountI : ℤ :=
    (fundValueSatoshis : ℤ) - ((inboundCapacityMsat / 1000 : ℕ) : ℤ)
      - (settlementAmount : ℤ) - ((dlcChannelFee / 2 : ℕ) : ℤ)
  let fee : ℕ := weight_to_fee COLLABORATIVE_REVERT_TX_WEIGHT feeRateSatsVb
  let coordinatorAmount : ℕ := (coordinatorAmountI % 2 ^ 64).toNat
  let traderAmount : ℕ :=
    (((fundValueSatoshis : ℤ) - (coordinatorAmount : ℤ)) % 2 ^ 64).toNat
  let coordinatorFinal : ℕ :=
    (((coordinatorAmount : ℤ) - ((fee / 2 : ℕ) : ℤ)) % 2 ^ 64).toNat
  let traderFinal : ℕ :=
    (((traderAmount : ℤ) - ((fee / 2 : ℕ) : ℤ)) % 2 ^ 64).toNat
  (coordinatorFinal, traderFinal)

/-- C3 counterexample: the claim quantifies over every split computed on
the proposal path, but the source never checks that each side's pre-fee
output covers its half of the on-chain close fee (the dust check is an
open TODO). With funding 200 000 sats, inbound capacity 1 000 000 msats,
settlement 0, DLC fee 0 and fee rate 5 sats/vB, the trader's pre-fee
output is 1 000 sats while half the close fee is 1 680 sats: the release
build's `u64` subtraction `trader_amount - fee / 2` wraps, and the final
amounts plus the fee sum to `funding + 2^64`, not the funding value. -/
theorem collaborative_revert_split_claim_counterexample :
    (collaborative_revert_split 200000 1000000 0 0 5).1 +
      (collaborative_revert_split 200000 1000000 0 0 5).2 +
      weight_to_fee COLLABORATIVE_REVERT_TX_WEIGHT 5 ≠ 200000 := by
  decide

/-- C3 (amended): for every collaborative-revert split computed on the
proposal path in which each side's pre-fee output covers its half of the
on-chain close fee (so no `u64` subtraction wraps) and the funding value
is a valid satoshi amount, the final coordinator amount plus the final
trader amount plus the on-chain close fee equals the channel's funding
value. The halving of the even fee `672 × rate` is exact, so no rounding
remainder appears. -/
theorem collaborative_revert_split_conserves_funding
    (F inMsat S df rate : ℕ)
    (h1 : weight_to_fee COLLABORATIVE_REVERT_TX_WEIGHT rate / 2 ≤
      inMsat / 1000 + S + df / 2)
    (h2 : inMsat / 1000 + S + df / 2 +
      weight_to_fee COLLABORATIVE_REVERT_TX_WEIGHT rate / 2 ≤ F)
    (h3 : F < 2 ^ 63) :
    (collaborative_revert_split F inMsat S df rate).1 +
      (collaborative_revert_split F inMsat S df rate).2 +
      weight_to_fee COLLABORATIVE_REVERT_TX_WEIGHT rate = F := by
  simp only [collaborative_revert_split, weight_to_fee,
    COLLABORATIVE_REVERT_TX_WEIGHT] at h1 h2 ⊢
  have hca : ((F : ℤ) - ↑(inMsat / 1000) - ↑S - ↑(df / 2)) % 2 ^ 64 =
      (F : ℤ) - ↑(inMsat / 1000) - ↑S - ↑(df / 2) := by omega
  rw [hca]
  have hca2 : ((F : ℤ) - ↑(inMsat / 1000) - ↑S - ↑(df / 2)).toNat =
      F - inMsat / 1000 - S - df / 2 := by omega
  rw [hca2]
  have hta : ((F : ℤ) - ↑(F - inMsat / 1000 - S - df / 2)) % 2 ^ 64 =
      (F : ℤ) - ↑(F - inMsat / 1000 - S - df / 2) := by omega
  rw [hta]
  have hta2 : ((F : ℤ) - ↑(F - inMsat / 1000 - S - df / 2)).toNat =
      inMsat / 1000 + S + df / 2 := by omega
  rw [hta2]
  have hcf : ((↑(F - inMsat / 1000 - S - df / 2) : ℤ) - ↑(672 * rate / 2)) % 2 ^ 64 =
      (↑(F - inMsat / 1000 - S - df / 2) : ℤ) - ↑(672 * rate / 2) := by omega
  rw [hcf]
  have htf : ((↑(inMsat / 1000 + S + df / 2) : ℤ) - ↑(672 * rate / 2)) % 2 ^ 64 =
      (↑(inMsat / 1000 + S + df / 2) : ℤ) - ↑(672 * rate / 2) := by omega
  rw [htf]
  omega

/-- C3 witness: the amended conservation theorem at funding 200 000 sats, inbound
capacity 50 000 000 msats, settlement 10 000 sats, DLC fee 3 000 sats and
fee rate 5 sats/vB. -/
theorem collaborative_revert_split_conserves_funding_witness :
    (collaborative_revert_split 200000 50000000 10000 3000 5).1 +
      (collaborative_revert_split 200000 50000000 10000 3000 5).2 +
      weight_to_fee COLLABORATIVE_REVERT_TX_WEIGHT 5 = 200000 :=
  collaborative_revert_split_conserves_funding 200000 50000000 10000 3000 5
    (by decide) (by decide) (by decide)

/-! ## Order matcher

Embedding of `coordinator/src/orderbook/trading.rs`: the data model
(`commons::Order`, `commons::Match`, `commons::FilledWith`,
`TraderMatchParams`, `MatchParams`) restricted to the fields the matcher
reads, and the functions `sort_orders` and `match_order`.

Modelling notes:

- `Order` keeps exactly the fields `match_order` and `sort_orders`
  consult: id, price, trader id, direction, quantity, order type and
  creation timestamp. Leverage, contract symbol, expiry, state, reason and
  the stable flag are never read by the matcher.
- the `Match` record's own UUID (`Uuid::new_v4()`, fresh randomness) is
  omitted; nothing in the matcher reads it back.
- the shared expiry timestamp (`commons::calculate_next_expiry(now,
  network)`, a function of the wall clock) and the oracle public key are
  passed in as parameters. -/

/-- Order direction (`trade::Direction`). -/
inductive Direction
  | long
  | short
deriving DecidableEq, Repr

/-- Order type (`commons::OrderType`). -/
inductive OrderType
  | market
  | limit
deriving DecidableEq, Repr

/-- The fields of `commons::Order` read by the matcher. -/
structure Order where
  id : ℕ
  price : ℚ
  traderId : ℕ
  direction : Direction
  quantity : ℚ
  orderType : OrderType
  timestamp : ℤ
deriving DecidableEq, Repr

/-- A match record (`commons::Match`, without its own fresh UUID). -/
structure Match where
  orderId : ℕ
  quantity : ℚ
  pubkey : ℕ
  executionPrice : ℚ
deriving DecidableEq, Repr

/-- Per-side match envelope (`commons::FilledWith`). The source field
`matches` is renamed `matchRecords` because `matches` is reserved in
Lean. -/
structure FilledWith where
  orderId : ℕ
  expiryTimestamp : ℤ
  oraclePk : ℕ
  matchRecords : List Match
deriving DecidableEq, Repr

/-- One trader's side of a match (`TraderMatchParams`). -/
structure TraderMatchParams where
  traderId : ℕ
  filledWith : FilledWith
deriving DecidableEq, Repr

/-- A complete match (`MatchParams`). -/
structure MatchParams where
  takerMatch : TraderMatchParams
  makersMatches : List TraderMatchParams
deriving DecidableEq, Repr

/-- Three-way comparison on a linear order, mirroring Rust's `Ord::cmp`
(used by the source on `Decimal` prices and `OffsetDateTime` timestamps). -/
def cmpLin {α : Type} [LinearOrder α] (a b : α) : Ordering :=
  if a < b then Ordering.lt else if a = b then Ordering.eq else Ordering.gt

/-- The comparator closure passed to `sort_by` inside `sort_orders`: equal
prices fall back to ascending timestamp; otherwise Long compares prices
ascending and Short descending. -/
def sort_orders_cmp (marketOrderDirection : Direction) (a b : Order) : Ordering :=
  if cmpLin a.price b.price = Ordering.eq then cmpLin a.timestamp b.timestamp
  else
    match marketOrderDirection with
    | Direction.long => cmpLin a.price b.price
    | Direction.short => cmpLin b.price a.price

/-- The "not greater" relation induced by the comparator: Rust `sort_by`
produces a list in which every adjacent pair compares `Less` or `Equal`. -/
def sortLE (marketOrderDirection : Direction) (a b : Order) : Prop :=
  sort_orders_cmp marketOrderDirection a b ≠ Ordering.gt

instance sortLEDecidable (dir : Direction) : DecidableRel (sortLE dir) := fun a b =>
  if h : sort_orders_cmp dir a b = Ordering.gt then isFalse (fun hn => hn h)
  else isTrue h

/-- Embeds `sort_orders`: Rust's `Vec::sort_by` is a stable sort by the
comparator, embedded as the stable insertion sort over `sortLE`. -/
def sort_orders (limitOrders : List Order) (marketOrderDirection : Direction) :
    List Order :=
  List.insertionSort (sortLE marketOrderDirection) limitOrders

/-- The matching walk of `match_order`: pop the head, subtract its quantity
from the running remainder, collect it, and stop as soon as the remainder
drops to zero or below (or the list is exhausted). -/
def match_walk (remainingQuantity : ℚ) : List Order → List Order
  | [] => []
  | o :: rest =>
    if remainingQuantity - o.quantity ≤ 0 then [o]
    else o :: match_walk (remainingQuantity - o.quantity) rest

/-- Embeds `match_order`: match a market order against the opposite-side
limit orders. `Except.error` models the `bail!` on multi-maker fills,
`Except.ok none` the no-match outcome. -/
def match_order (marketOrder : Order) (oppositeDirectionOrders : List Order)
    (oraclePk : ℕ) (expiryTimestamp : ℤ) : Except String (Option MatchParams) :=
  if marketOrder.orderType = OrderType.limit then Except.ok none
  else
    let oppositeDirectionOrders' :=
      oppositeDirectionOrders.filter fun o => !decide (o.direction = marketOrder.direction)
    let orders := sort_orders oppositeDirectionOrders' marketOrder.direction
    let matchedOrders := match_walk marketOrder.quantity orders
    if matchedOrders.length > 1 then
      Except.error "More than one matched order, please reduce order quantity"
    else if matchedOrders.isEmpty then Except.ok none
    else
      let matchPairs := matchedOrders.map fun makerOrder =>
        ((⟨makerOrder.traderId,
            ⟨makerOrder.id, expiryTimestamp, oraclePk,
              [⟨marketOrder.id, marketOrder.quantity, marketOrder.traderId,
                makerOrder.price⟩]⟩⟩ : TraderMatchParams),
          (⟨makerOrder.id, marketOrder.quantity, makerOrder.traderId,
            makerOrder.price⟩ : Match))
      Except.ok (some
        ⟨⟨marketOrder.traderId,
          ⟨marketOrder.id, expiryTimestamp, oraclePk, matchPairs.map Prod.snd⟩⟩,
          matchPairs.map Prod.fst⟩)

/-- The ordering demanded by the spec for the sorted book: equal prices are
tie-broken by ascending timestamp, otherwise Long sorts prices ascending
and Short descending. -/
def bookOrdered (dir : Direction) (a b : Order) : Prop :=
  if a.price = b.price then a.timestamp ≤ b.timestamp
  else
    match dir with
    | Direction.long => a.price < b.price
    | Direction.short => b.price < a.price

theorem cmpLin_ne_gt_iff {α : Type} [LinearOrder α] {a b : α} :
    cmpLin a b ≠ Ordering.gt ↔ a ≤ b := by
  unfold cmpLin
  split_ifs with h1 h2
  · simp [le_of_lt h1]
  · simp [le_of_eq h2]
  · have : b < a := (not_lt.mp h1).lt_of_ne (fun h => h2 h.symm)
    simp [not_le.mpr this]

theorem cmpLin_eq_eq_iff {α : Type} [LinearOrder α] {a b : α} :
    cmpLin a b = Ordering.eq ↔ a = b := by
  unfold cmpLin
  split_ifs with h1 h2
  · simp [ne_of_lt h1]
  · simp [h2]
  · simp [h2]

theorem sortLE_iff_bookOrdered (dir : Direction) (a b : Order) :
    sortLE dir a b ↔ bookOrdered dir a b := by
  unfold sortLE bookOrdered sort_orders_cmp
  by_cases hp : a.price = b.price
  · rw [if_pos (cmpLin_eq_eq_iff.mpr hp), if_pos hp]
    exact cmpLin_ne_gt_iff
  · rw [if_neg (fun hc => hp (cmpLin_eq_eq_iff.mp hc)), if_neg hp]
    cases dir
    · constructor
      · intro h
        exact (cmpLin_ne_gt_iff.mp h).lt_of_ne hp
      · intro h
        exact cmpLin_ne_gt_iff.mpr h.le
    · constructor
      · intro h
        exact (cmpLin_ne_gt_iff.mp h).lt_of_ne (fun h' => hp h'.symm)
      · intro h
        exact cmpLin_ne_gt_iff.mpr h.le

instance sortLETotal (dir : Direction) : IsTotal Order (sortLE dir) := by
  constructor
  intro a b
  rw [sortLE_iff_bookOrdered, sortLE_iff_bookOrdered]
  unfold bookOrdered
  by_cases hp : a.price = b.price
  · rw [if_pos hp, if_pos hp.symm]
    exact le_total _ _
  · rw [if_neg hp, if_neg (fun h => hp h.symm)]
    cases dir
    · exact lt_or_gt_of_ne hp
    · exact lt_or_gt_of_ne (fun h => hp h.symm)

instance sortLETrans (dir : Direction) : IsTrans Order (sortLE dir) := by
  constructor
  intro a b c hab hbc
  rw [sortLE_iff_bookOrdered] at hab hbc ⊢
  unfold bookOrdered at hab hbc ⊢
  by_cases hab' : a.price = b.price <;> by_cases hbc' : b.price = c.price
  · rw [if_pos hab'] at hab
    rw [if_pos hbc'] at hbc
    rw [if_pos (hab'.trans hbc')]
    exact le_trans hab hbc
  · rw [if_pos hab'] at hab
    rw [if_neg hbc'] at hbc
    rw [if_neg (fun h => hbc' (hab' ▸ h))]
    cases dir
    · exact hab' ▸ hbc
    · exact hab' ▸ hbc
  · rw [if_neg hab'] at hab
    rw [if_pos hbc'] at hbc
    rw [if_neg (fun h => hab' (hbc' ▸ h))]
    cases dir
    · exact hbc' ▸ hab
    · exact hbc' ▸ hab
  · rw [if_neg hab'] at hab
    rw [if_neg hbc'] at hbc
    cases dir
    · have hac : a.price < c.price := lt_trans hab hbc
      rw [if_neg (ne_of_lt hac)]
      exact hac
    · have hac : c.price < a.price := lt_trans hbc hab
      rw [if_neg (fun h => ne_of_lt hac h.symm)]
      exact hac

/-- C6: the list produced by `sort_orders` is ordered as specified: for
every adjacent pair, equal prices appear in ascending order of timestamp;
otherwise prices descend when the market order is Short and ascend when it
is Long. -/
theorem sort_orders_adjacent_ordered (l : List Order) (dir : Direction) :
    List.Chain'
      (fun a b =>
        if a.price = b.price then a.timestamp ≤ b.timestamp
        else
          match dir with
          | Direction.long => a.price < b.price
          | Direction.short => b.price < a.price)
      (sort_orders l dir) := by
  have hs : List.Sorted (sortLE dir) (sort_orders l dir) :=
    List.sorted_insertionSort _ _
  exact (hs.imp fun hab => (sortLE_iff_bookOrdered _ _ _).mp hab).chain'

/-- C10: an order of type Limit arriving in the market-order position of
`match_order` yields no match and no error, for every book. -/
theorem match_order_limit_market_order_no_match (mo : Order) (l : List Order)
    (pk : ℕ) (exp : ℤ) (h : mo.orderType = OrderType.limit) :
    match_order mo l pk exp = Except.ok none := by
  unfold match_order
  rw [if_pos h]

/-- C10 witness: a concrete Limit order is absorbed with `Ok(None)`. -/
theorem match_order_limit_market_order_no_match_witness :
    match_order ⟨1, 5, 1, Direction.long, 10, OrderType.limit, 0⟩
      [⟨2, 6, 2, Direction.short, 10, OrderType.limit, 0⟩] 0 0 =
      Except.ok none :=
  match_order_limit_market_order_no_match _ _ 0 0 rfl

/-- Every order collected by the matching walk comes from the input list. -/
theorem match_walk_subset (q : ℚ) (l : List Order) :
    ∀ x ∈ match_walk q l, x ∈ l := by
  induction l generalizing q with
  | nil =>
    intro x hx
    simp [match_walk] at hx
  | cons a t ih =>
    intro x hx
    rw [match_walk] at hx
    by_cases hc : q - a.quantity ≤ 0
    · rw [if_pos hc] at hx
      simp only [List.mem_singleton] at hx
      simp [hx]
    · rw [if_neg hc] at hx
      rcases List.mem_cons.mp hx with h | h
      · simp [h]
      · exact List.mem_cons_of_mem _ (ih _ x h)

/-- C5: for a Market order, if the matching walk over the sorted
opposite-direction book consumes more than one maker order, `match_order`
fails with the multi-maker error; if it consumes zero maker orders,
`match_order` returns no match and no error. -/
theorem match_order_multi_maker_errors_zero_is_no_match (mo : Order)
    (l : List Order) (pk : ℕ) (exp : ℤ) (h : mo.orderType = OrderType.market) :
    (1 < (match_walk mo.quantity (sort_orders
        (l.filter fun o => !decide (o.direction = mo.direction))
        mo.direction)).length →
      match_order mo l pk exp =
        Except.error "More than one matched order, please reduce order quantity") ∧
    ((match_walk mo.quantity (sort_orders
        (l.filter fun o => !decide (o.direction = mo.direction))
        mo.direction)).length = 0 →
      match_order mo l pk exp = Except.ok none) := by
  have hlim : ¬mo.orderType = OrderType.limit := by
    rw [h]
    intro hc
    cases hc
  constructor
  · intro hlen
    simp only [match_order, if_neg hlim]
    rw [if_pos hlen]
  · intro hlen
    have hnil : match_walk mo.quantity (sort_orders
        (l.filter fun o => !decide (o.direction = mo.direction))
        mo.direction) = [] := List.length_eq_zero.mp hlen
    simp only [match_order, if_neg hlim, hnil]
    simp

/-- C5 witness: a Short market order of quantity 150 against two Long
limit orders of quantity 100 each needs two makers and errors; against an
empty book it returns no match. -/
theorem match_order_multi_maker_errors_zero_is_no_match_witness :
    match_order ⟨9, 0, 2, Direction.short, 150, OrderType.market, 0⟩
      [⟨1, 20000, 1, Direction.long, 100, OrderType.limit, 0⟩,
        ⟨2, 21000, 1, Direction.long, 100, OrderType.limit, 0⟩] 0 0 =
      Except.error "More than one matched order, please reduce order quantity" ∧
    match_order ⟨9, 0, 2, Direction.short, 150, OrderType.market, 0⟩ [] 0 0 =
      Except.ok none :=
  ⟨(match_order_multi_maker_errors_zero_is_no_match _ _ 0 0 rfl).1
      (by norm_num [match_walk, sort_orders, sortLE, sort_orders_cmp, cmpLin,
        List.filter]),
    (match_order_multi_maker_errors_zero_is_no_match _ _ 0 0 rfl).2 rfl⟩

/-- C7: every successful match carries the maker's limit price as the
execution price on both the taker-side and the maker-side records, and
both sides total exactly the market order's quantity. -/
theorem match_order_maker_price_market_quantity (mo : Order) (l : List Order)
    (pk : ℕ) (exp : ℤ) (mp : MatchParams)
    (h : match_order mo l pk exp = Except.ok (some mp)) :
    ∃ maker ∈ l,
      (∀ m ∈ mp.takerMatch.filledWith.matchRecords,
        m.executionPrice = maker.price ∧ m.quantity = mo.quantity) ∧
      (∀ tmp ∈ mp.makersMatches, ∀ m ∈ tmp.filledWith.matchRecords,
        m.executionPrice = maker.price ∧ m.quantity = mo.quantity) ∧
      (mp.takerMatch.filledWith.matchRecords.map Match.quantity).sum = mo.quantity ∧
      (mp.makersMatches.map
        (fun tmp => (tmp.filledWith.matchRecords.map Match.quantity).sum)).sum =
        mo.quantity := by
  by_cases hlim : mo.orderType = OrderType.limit
  · rw [match_order, if_pos hlim] at h
    simp at h
  · simp only [match_order, if_neg hlim] at h
    by_cases h1 : (match_walk mo.quantity (sort_orders
        (l.filter fun o => !decide (o.direction = mo.direction))
        mo.direction)).length > 1
    · rw [if_pos h1] at h
      simp at h
    · rw [if_neg h1] at h
      by_cases h2 : (match_walk mo.quantity (sort_orders
          (l.filter fun o => !decide (o.direction = mo.direction))
          mo.direction)).isEmpty = true
      · rw [if_pos h2] at h
        simp at h
      · rw [if_neg h2] at h
        obtain ⟨o, ho⟩ : ∃ o, match_walk mo.quantity (sort_orders
            (l.filter fun o => !decide (o.direction = mo.direction))
            mo.direction) = [o] := by
          cases hwc : match_walk mo.quantity (sort_orders
              (l.filter fun o => !decide (o.direction = mo.direction))
              mo.direction) with
          | nil =>
            rw [hwc] at h2
            simp at h2
          | cons a t =>
            cases t with
            | nil => exact ⟨a, rfl⟩
            | cons b t2 =>
              rw [hwc] at h1
              simp at h1
        have homem : o ∈ match_walk mo.quantity (sort_orders
            (l.filter fun o => !decide (o.direction = mo.direction))
            mo.direction) := by
          rw [ho]
          exact List.mem_singleton_self o
        have hol : o ∈ l := by
          have hsorted := match_walk_subset _ _ _ homem
          unfold sort_orders at hsorted
          rw [List.mem_insertionSort] at hsorted
          exact List.mem_of_mem_filter hsorted
        rw [ho] at h
        simp only [List.map_cons, List.map_nil, Except.ok.injEq,
          Option.some.injEq] at h
        subst h
        refine ⟨o, hol, ?_, ?_, ?_, ?_⟩
        · intro m hm
          simp only [List.mem_singleton] at hm
          subst hm
          exact ⟨rfl, rfl⟩
        · intro tmp htmp m hm
          simp only [List.mem_singleton] at htmp
          subst htmp
          simp only [List.mem_singleton] at hm
          subst hm
          exact ⟨rfl, rfl⟩
        · simp
        · simp

/-- C7 witness: a Short market order of quantity 100 filled by a single
Long limit maker at price 20 000: both sides record price 20 000 and
quantity 100. -/
theorem match_order_maker_price_market_quantity_witness :
    ∃ mp, match_order ⟨9, 0, 2, Direction.short, 100, OrderType.market, 0⟩
        [⟨1, 20000, 1, Direction.long, 100, OrderType.limit, 0⟩] 0 0 =
        Except.ok (some mp) ∧
      ∃ maker ∈ [(⟨1, 20000, 1, Direction.long, 100, OrderType.limit, 0⟩ : Order)],
        (∀ m ∈ mp.takerMatch.filledWith.matchRecords,
          m.executionPrice = maker.price ∧ m.quantity = (100 : ℚ)) ∧
        (∀ tmp ∈ mp.makersMatches, ∀ m ∈ tmp.filledWith.matchRecords,
          m.executionPrice = maker.price ∧ m.quantity = (100 : ℚ)) ∧
        (mp.takerMatch.filledWith.matchRecords.map Match.quantity).sum = (100 : ℚ) ∧
        (mp.makersMatches.map
          (fun tmp => (tmp.filledWith.matchRecords.map Match.quantity).sum)).sum =
          (100 : ℚ) := by
  have heq : match_order ⟨9, 0, 2, Direction.short, 100, OrderType.market, 0⟩
      [⟨1, 20000, 1, Direction.long, 100, OrderType.limit, 0⟩] 0 0 =
      Except.ok (some ⟨⟨2, ⟨9, 0, 0, [⟨1, 100, 1, 20000⟩]⟩⟩,
        [⟨1, ⟨1, 0, 0, [⟨9, 100, 2, 20000⟩]⟩⟩]⟩) := by
    norm_num [match_order, sort_orders, sortLE, sort_orders_cmp, cmpLin,
      match_walk, List.filter]
    rintro ⟨⟩
  exact ⟨_, heq, match_order_maker_price_market_quantity _ _ 0 0 _ heq⟩

/-! ## On-chain wallet: UTXO selection and the reservation store

Embedding of `crates/ln-dlc-node/src/ldk_node_wallet.rs`. The in-memory
reservation store `locked_outpoints` is a `Vec<OutPoint>`; an outpoint
`(txid, vout)` is modelled as `ℕ × ℕ`. The external collaborators are
modelled as function parameters:

- the branch-and-bound coin selector (`bdk_coin_select`): everything the
  source feeds it (fee rate, target, base weight, per-candidate segwit
  weights, change policy, iteration budget) only influences which indices
  `selected_indices()` returns, so it is abstracted as a function from the
  candidate list to an optional list of indices (`none` models
  "Failed to select coins"). Rust indexes `utxos[*index]`, which panics on
  an out-of-range index; the embedding guards the indices and treats that
  as failure.
- the PSBT builder (`build_psbt`: bdk transaction builder plus signing):
  abstracted as a function from the unspendable set handed to
  `add_unspendable` to an optional signed transaction.

`sync` clears the store (`locked_outpoints.lock().clear()`); the claims
here concern `extend` and the selector, so `sync` needs no embedding. -/

/-- A transaction input (`bitcoin::TxIn`), reduced to its previous
outpoint. -/
structure TxIn where
  previousOutput : ℕ × ℕ
deriving DecidableEq, Repr

/-- A transaction output (`bitcoin::TxOut`); the script is modelled as an
opaque number. -/
structure TxOut where
  value : ℕ
  scriptPubkey : ℕ
deriving DecidableEq, Repr

/-- A transaction (`bitcoin::Transaction`), reduced to inputs and
outputs. -/
structure Transaction where
  input : List TxIn
  output : List TxOut
deriving DecidableEq, Repr

/-- A wallet UTXO (`bdk::LocalUtxo`): outpoint, txout and spent flag (the
keychain field is never read by the embedded code). -/
structure LocalUtxo where
  outpoint : ℕ × ℕ
  txout : TxOut
  isSpent : Bool
deriving DecidableEq, Repr

/-- A DLC-funding UTXO (`dlc_manager::Utxo`). `Address::from_script` is
modelled as the script itself; `Script::new()` as `0`. -/
structure Utxo where
  txOut : TxOut
  outpoint : ℕ × ℕ
  address : ℕ
  redeemScript : ℕ
  reserved : Bool
deriving DecidableEq, Repr

/-- The candidate filter in `get_utxos_for_dlc_funding_transaction`: drop
UTXOs whose outpoint is already reserved, then drop spent ones. -/
def availableUtxos (utxos : List LocalUtxo) (lockedOutpoints : List (ℕ × ℕ)) :
    List LocalUtxo :=
  (utxos.filter fun u => !decide (u.outpoint ∈ lockedOutpoints)).filter
    fun u => !u.isSpent

/-- The `dlc_manager::Utxo` built for each selected index. -/
def toDlcUtxo (u : LocalUtxo) : Utxo :=
  { txOut := u.txout, outpoint := u.outpoint, address := u.txout.scriptPubkey,
    redeemScript := 0, reserved := false }

/-- Embeds `get_utxos_for_dlc_funding_transaction`: filter out reserved and
spent UTXOs, run the (abstracted) selector over the remaining candidates,
build the selected `Utxo`s and, when `should_lock_utxos` is set, push their
outpoints onto the reservation store. Returns the selected UTXOs together
with the updated store. -/
def get_utxos_for_dlc_funding_transaction
    (selectIndices : List LocalUtxo → Option (List ℕ))
    (utxos : List LocalUtxo) (lockedOutpoints : List (ℕ × ℕ))
    (shouldLockUtxos : Bool) : Option (List Utxo × List (ℕ × ℕ)) :=
  let filtered := availableUtxos utxos lockedOutpoints
  match selectIndices filtered with
  | none => none
  | some indices =>
    if indices.all fun i => i < filtered.length then
      let selected := indices.filterMap fun i => filtered[i]?.map toDlcUtxo
      some (selected,
        if shouldLockUtxos then lockedOutpoints ++ selected.map Utxo.outpoint
        else lockedOutpoints)
    else none

/-- Embeds `create_funding_transaction`: build and sign a PSBT with every
currently reserved outpoint marked unspendable, extract the transaction,
and extend the reservation store with the outpoints it spends. Returns the
transaction together with the updated store. -/
def create_funding_transaction
    (buildPsbt : List (ℕ × ℕ) → Option Transaction)
    (lockedOutpoints : List (ℕ × ℕ)) : Option (Transaction × List (ℕ × ℕ)) :=
  match buildPsbt lockedOutpoints with
  | none => none
  | some tx => some (tx, lockedOutpoints ++ tx.input.map TxIn.previousOutput)

/-- Embeds `send_to_address`: identical store discipline to
`create_funding_transaction` — build the PSBT against the reserved set,
extend the store with the new transaction's previous outpoints, then
broadcast (the broadcast happens after the extension and does not undo
it). -/
def send_to_address
    (buildPsbt : List (ℕ × ℕ) → Option Transaction)
    (lockedOutpoints : List (ℕ × ℕ)) : Option (Transaction × List (ℕ × ℕ)) :=
  match buildPsbt lockedOutpoints with
  | none => none
  | some tx => some (tx, lockedOutpoints ++ tx.input.map TxIn.previousOutput)

/-- Characterization of a successful selector run: the selected list is
built from in-range indices into the filtered candidate list, and the
store is extended exactly with the selected outpoints when locking is
requested. -/
theorem get_utxos_for_dlc_funding_transaction_eq
    (selectIndices : List LocalUtxo → Option (List ℕ))
    (utxos : List LocalUtxo) (locked : List (ℕ × ℕ)) (shouldLock : Bool)
    (sel : List Utxo) (locked' : List (ℕ × ℕ))
    (h : get_utxos_for_dlc_funding_transaction selectIndices utxos locked
      shouldLock = some (sel, locked')) :
    ∃ indices, selectIndices (availableUtxos utxos locked) = some indices ∧
      sel = indices.filterMap
        (fun i => (availableUtxos utxos locked)[i]?.map toDlcUtxo) ∧
      locked' = if shouldLock then locked ++ sel.map Utxo.outpoint
        else locked := by
  simp only [get_utxos_for_dlc_funding_transaction] at h
  split at h
  · exact absurd h (by simp)
  · rename_i indices hindices
    split at h
    · simp only [Option.some.injEq, Prod.mk.injEq] at h
      obtain ⟨hsel, hlock⟩ := h
      exact ⟨indices, hindices, hsel.symm, by rw [← hsel, ← hlock]⟩
    · exact absurd h (by simp)

/-- C8: on success, the selector never returns a UTXO whose outpoint was
reserved at the start of the call or whose spent flag is set; and with
`should_lock` the reservation store returned is the initial store extended
with exactly the selected outpoints. -/
theorem get_utxos_for_dlc_funding_transaction_avoids_reserved_and_spent
    (selectIndices : List LocalUtxo → Option (List ℕ))
    (utxos : List LocalUtxo) (locked : List (ℕ × ℕ)) (shouldLock : Bool)
    (sel : List Utxo) (locked' : List (ℕ × ℕ))
    (h : get_utxos_for_dlc_funding_transaction selectIndices utxos locked
      shouldLock = some (sel, locked')) :
    (∀ u ∈ sel, u.outpoint ∉ locked ∧
      ∃ src ∈ utxos, src.outpoint = u.outpoint ∧ src.isSpent = false) ∧
    (shouldLock = true → locked' = locked ++ sel.map Utxo.outpoint) := by
  obtain ⟨indices, hindices, hsel, hlock⟩ :=
    get_utxos_for_dlc_funding_transaction_eq _ _ _ _ _ _ h
  constructor
  · intro u hu
    rw [hsel] at hu
    rcases List.mem_filterMap.mp hu with ⟨i, hi, hmap⟩
    rcases Option.map_eq_some'.mp hmap with ⟨src, hget, hconv⟩
    have hsrcmem : src ∈ availableUtxos utxos locked := List.getElem?_mem hget
    unfold availableUtxos at hsrcmem
    have h1 := List.mem_filter.mp hsrcmem
    have h2 := List.mem_filter.mp h1.1
    have hnotlocked : src.outpoint ∉ locked := by
      have := h2.2
      simp only [Bool.not_eq_eq_eq_not, Bool.not_true, decide_eq_false_iff_not]
        at this
      exact this
    have hnotspent : src.isSpent = false := by
      have := h1.2
      simp only [Bool.not_eq_eq_eq_not, Bool.not_true] at this
      exact this
    subst hconv
    exact ⟨hnotlocked, src, h2.1, rfl, hnotspent⟩
  · intro hsl
    rw [hlock, if_pos hsl]

/-- C8 witness: a wallet with a single unspent UTXO at outpoint `(1, 0)`,
a store holding `(9, 9)`, a selector picking index `0` and locking
requested. -/
theorem get_utxos_for_dlc_funding_transaction_avoids_reserved_and_spent_witness :
    (∀ u ∈ [(⟨⟨5000, 7⟩, (1, 0), 7, 0, false⟩ : Utxo)],
      u.outpoint ∉ [((9 : ℕ), (9 : ℕ))] ∧
      ∃ src ∈ [(⟨(1, 0), ⟨5000, 7⟩, false⟩ : LocalUtxo)],
        src.outpoint = u.outpoint ∧ src.isSpent = false) ∧
    (true = true →
      [((9 : ℕ), (9 : ℕ)), ((1 : ℕ), (0 : ℕ))] = [((9 : ℕ), (9 : ℕ))] ++
        [(⟨⟨5000, 7⟩, (1, 0), 7, 0, false⟩ : Utxo)].map Utxo.outpoint) :=
  get_utxos_for_dlc_funding_transaction_avoids_reserved_and_spent
    (fun _ => some [0]) [⟨(1, 0), ⟨5000, 7⟩, false⟩] [(9, 9)] true _ _ rfl

/-- Selecting along duplicate-free indices from a duplicate-free list
yields a duplicate-free list. -/
theorem nodup_filterMap_getElem? {α : Type} (l : List α) (idx : List ℕ)
    (hl : l.Nodup) (hidx : idx.Nodup) :
    (idx.filterMap fun i => l[i]?).Nodup := by
  induction idx with
  | nil => simp
  | cons i rest ih =>
    obtain ⟨hnotin, hrest⟩ := List.nodup_cons.mp hidx
    rw [List.filterMap_cons]
    cases hg : l[i]? with
    | none => exact ih hrest
    | some b =>
      rw [List.nodup_cons]
      refine ⟨?_, ih hrest⟩
      intro hbmem
      rcases List.mem_filterMap.mp hbmem with ⟨j, hj, hgj⟩
      have hij : i = j := by
        have hlen : i < l.length := (List.getElem?_eq_some_iff.mp hg).1
        exact List.getElem?_inj hlen hl (hg.trans hgj.symm)
      exact hnotin (hij ▸ hj)

/-- C9: the reservation store stays duplicate-free across every successful
extension, for each of the three extending operations. The hypotheses
record the contracts of the external collaborators: the PSBT builder
returns a valid transaction (pairwise-distinct inputs) that respects the
unspendable set it was given, the wallet enumerates distinct unspent
outpoints, and the coin selector returns distinct indices. -/
theorem locked_outpoints_nodup_after_extend
    (locked : List (ℕ × ℕ)) (hnd : locked.Nodup) :
    (∀ (buildPsbt : List (ℕ × ℕ) → Option Transaction) (tx : Transaction)
        (locked' : List (ℕ × ℕ)),
      create_funding_transaction buildPsbt locked = some (tx, locked') →
      (tx.input.map TxIn.previousOutput).Nodup →
      (∀ p ∈ tx.input.map TxIn.previousOutput, p ∉ locked) →
      locked'.Nodup) ∧
    (∀ (buildPsbt : List (ℕ × ℕ) → Option Transaction) (tx : Transaction)
        (locked' : List (ℕ × ℕ)),
      send_to_address buildPsbt locked = some (tx, locked') →
      (tx.input.map TxIn.previousOutput).Nodup →
      (∀ p ∈ tx.input.map TxIn.previousOutput, p ∉ locked) →
      locked'.Nodup) ∧
    (∀ (selectIndices : List LocalUtxo → Option (List ℕ))
        (utxos : List LocalUtxo) (sel : List Utxo) (locked' : List (ℕ × ℕ)),
      (utxos.map LocalUtxo.outpoint).Nodup →
      (∀ cands idx, selectIndices cands = some idx → idx.Nodup) →
      get_utxos_for_dlc_funding_transaction selectIndices utxos locked true =
        some (sel, locked') →
      locked'.Nodup) := by
  refine ⟨?_, ?_, ?_⟩
  · intro buildPsbt tx locked' h hin hdisj
    simp only [create_funding_transaction] at h
    split at h
    · exact absurd h (by simp)
    · rename_i tx' htx'
      simp only [Option.some.injEq, Prod.mk.injEq] at h
      obtain ⟨htx, hlock⟩ := h
      subst htx
      rw [← hlock]
      exact hnd.append hin (List.disjoint_right.mpr hdisj)
  · intro buildPsbt tx locked' h hin hdisj
    simp only [send_to_address] at h
    split at h
    · exact absurd h (by simp)
    · rename_i tx' htx'
      simp only [Option.some.injEq, Prod.mk.injEq] at h
      obtain ⟨htx, hlock⟩ := h
      subst htx
      rw [← hlock]
      exact hnd.append hin (List.disjoint_right.mpr hdisj)
  · intro selectIndices utxos sel locked' hutx hsi h
    obtain ⟨indices, hindices, hsel, hlock⟩ :=
      get_utxos_for_dlc_funding_transaction_eq _ _ _ _ _ _ h
    have hidxnd : indices.Nodup := hsi _ _ hindices
    have hfiltnd : ((availableUtxos utxos locked).map LocalUtxo.outpoint).Nodup := by
      have hsub : List.Sublist (availableUtxos utxos locked) utxos :=
        (List.filter_sublist _).trans (List.filter_sublist _)
      exact (hsub.map LocalUtxo.outpoint).nodup hutx
    have hmapEq : sel.map Utxo.outpoint = indices.filterMap
        fun i => ((availableUtxos utxos locked).map LocalUtxo.outpoint)[i]? := by
      rw [hsel, List.map_filterMap]
      congr 1
      funext i
      rw [List.getElem?_map, Option.map_map]
      rfl
    have hndsel : (sel.map Utxo.outpoint).Nodup := by
      rw [hmapEq]
      exact nodup_filterMap_getElem? _ _ hfiltnd hidxnd
    have hdisj : ∀ p ∈ sel.map Utxo.outpoint, p ∉ locked := by
      rw [hmapEq]
      intro p hp
      rcases List.mem_filterMap.mp hp with ⟨i, hi, hg⟩
      have hpmem : p ∈ (availableUtxos utxos locked).map LocalUtxo.outpoint :=
        List.getElem?_mem hg
      rcases List.mem_map.mp hpmem with ⟨src, hsrc, hpe⟩
      unfold availableUtxos at hsrc
      have h1 := List.mem_filter.mp hsrc
      have h2 := List.mem_filter.mp h1.1
      have := h2.2
      simp only [Bool.not_eq_eq_eq_not, Bool.not_true, decide_eq_false_iff_not]
        at this
      exact hpe ▸ this
    rw [hlock, if_pos rfl]
    exact hnd.append hndsel (List.disjoint_right.mpr hdisj)

/-- C9 witness: extending the singleton store `[(9, 9)]` with a funding
transaction spending `(1, 0)` leaves the store duplicate-free. -/
theorem locked_outpoints_nodup_after_extend_witness :
    ([((9 : ℕ), (9 : ℕ)), ((1 : ℕ), (0 : ℕ))] : List (ℕ × ℕ)).Nodup :=
  (locked_outpoints_nodup_after_extend [(9, 9)] (by decide)).1
    (fun _ => some ⟨[⟨(1, 0)⟩], []⟩) ⟨[⟨(1, 0)⟩], []⟩ [(9, 9), (1, 0)] rfl
    (by decide) (by decide)

/-! ## Collaborative-revert confirmation guard

Embedding of the coordinator-output check at the top of
`confirm_collaborative_revert`
(`coordinator/src/collaborative_revert.rs`, lines 212–222). The source
rejects the request — before signing, broadcasting or closing the
position — exactly when

    !revert_params.transaction.output.iter()
        .any(|output| inner_node.wallet().is_mine(&output.script_pubkey).is_ok())

`Wallet::is_mine` (`crates/ln-dlc-node/src/ldk_node_wallet.rs`) returns
`Result<bool>`: `Ok(true)` for a wallet-owned script, `Ok(false)` for a
foreign script, `Err` only when the underlying wallet database fails. It
is modelled as a function into `Except Unit Bool`, and `.is_ok()` as
`Except.isOk`. -/

/-- Embeds the guard: `true` means the request is rejected (the `bail!`
branch is taken), `false` means `confirm_collaborative_revert` proceeds to
sign, broadcast and close the position. -/
def confirm_collaborative_revert_rejects
    (isMine : ℕ → Except Unit Bool) (tx : Transaction) : Bool :=
  !(tx.output.any fun o => (isMine o.scriptPubkey).isOk)

/-- C1 (code bug): with a functioning wallet that owns nothing
(`is_mine` answers `Ok(false)` on every script), a candidate transaction
whose single output pays a foreign script is NOT rejected — the guard
tests `.is_ok()`, which is `true` for `Ok(false)` as much as for
`Ok(true)`, so the ownership answer is never consulted and
`confirm_collaborative_revert` proceeds to sign, broadcast and mark the
position Closed. The claim (and spec §4.F step 1) requires this request
to be rejected with `NoCoordinatorOutput`. -/
theorem confirm_collaborative_revert_accepts_foreign_output :
    confirm_collaborative_revert_rejects (fun _ => Except.ok false)
      ⟨[⟨(0, 0)⟩], [⟨5000, 42⟩]⟩ = false := by
  decide
